/-
Verification of the jupyterhub-metrics historical importers
(`history/import_from_influxdb_v1.py` and `history/import_from_influxdb_v2.py`).

Shallow embedding conventions:
  * `datetime` values are modelled as `Int` seconds since an arbitrary epoch;
    `timedelta(seconds = w)` is `+ w`, comparison and `min` are the `Int` ones.
  * Python dicts used as raw records are modelled as structures whose fields
    are `Option`al exactly where the code calls `.get` and can observe absence.
  * An ISO timestamp string is modelled by its parsed value (parsing is treated
    as injective); a missing or falsy/unparseable timestamp is `none`.
  * A raised Python exception is modelled by an `Option`-valued function
    returning `none`.
  * String manipulation is modelled over `List Char` (with `String.toList` /
    `List.asString` at the boundary) so that concrete witnesses evaluate by
    kernel reduction.
-/
import Mathlib

set_option autoImplicit false

/-! # Definitions -/

/-! ## Generic string helpers (Python string methods used by the importers) -/

/-- `leadsWith pat l` : `l` begins with `pat` (Python `str.startswith`). -/
def leadsWith : List Char → List Char → Bool
  | [], _ => true
  | _ :: _, [] => false
  | a :: as, b :: bs => a == b && leadsWith as bs

/-- Python `s.startswith(p)`. -/
def startsWithStr (p s : String) : Bool := leadsWith p.toList s.toList

/-- Python `s[n:]`. -/
def dropStr (n : Nat) (s : String) : String := (s.toList.drop n).asString

/-- The suffix of `l` after the last occurrence of `c` (`l` must contain `c`;
Python `l.split(c)[-1]` / second half of `l.rsplit(c, 1)`). -/
def afterLastChar (c : Char) (l : List Char) : List Char :=
  (l.reverse.takeWhile (fun a => a ≠ c)).reverse

/-- The part of `l` before the last occurrence of `c` (first half of
Python `l.rsplit(c, 1)` when `c` occurs in `l`). -/
def beforeLastChar (c : Char) (l : List Char) : List Char :=
  ((l.reverse.dropWhile (fun a => a ≠ c)).drop 1).reverse

def afterLastStr (c : Char) (s : String) : String := (afterLastChar c s.toList).asString

def beforeLastStr (c : Char) (s : String) : String := (beforeLastChar c s.toList).asString

/-- Python `s.rsplit(sep, 1)[0]`: everything before the last `sep`, or the
whole string when `sep` does not occur. -/
def rsplitHead (sep : Char) (s : String) : String :=
  if s.toList.contains sep then beforeLastStr sep s else s

/-- Python `s.replace("-", " ")` (single-character pattern, hence a
character-wise map). -/
def replaceDashSpace (s : String) : String :=
  (s.toList.map (fun c => if c = '-' then ' ' else c)).asString

/-- Python `s.title()` restricted to ASCII: the first character of every
maximal alphabetic run is uppercased, the rest lowercased. -/
def titleChars : List Char → Bool → List Char
  | [], _ => []
  | c :: rest, prevAlpha =>
    if c.isAlpha then
      (if prevAlpha then c.toLower else c.toUpper) :: titleChars rest true
    else c :: titleChars rest false

def pyTitle (s : String) : String := (titleChars s.toList false).asString

/-- Python `s.lower()` restricted to ASCII. -/
def pyLower (s : String) : String := (s.toList.map Char.toLower).asString

/-- Postgres `split_part(email, '@', 1)`: the part before the first `@`
(the whole string when there is no `@`). -/
def emailLocalPart (email : String) : String :=
  (email.toList.takeWhile (fun c => c ≠ '@')).asString

/-- First-match lookup in an association list (Python `dict` read). -/
def lookupL {β : Type} (k : String) : List (String × β) → Option β
  | [] => none
  | (a, v) :: rest => if a = k then some v else lookupL k rest

/-- Python `min` over a list (`none` on the empty list). -/
def listMin : List Int → Option Int
  | [] => none
  | t :: rest =>
    some (match listMin rest with
          | none => t
          | some m => min t m)

/-- Merge of two optional minima (used to state map-building invariants). -/
def optMin : Option Int → Option Int → Option Int
  | none, b => b
  | some a, none => some a
  | some a, some b => some (min a b)

/-! ## Shared data model -/

/-- Result of `extract_user_info_from_pod_name` (both importers). -/
structure UserInfo where
  email : String
  name : String
deriving DecidableEq, Repr

/-- Result of `extract_container_info` (both importers, identical source). -/
structure ContainerInfo where
  base : String
  version : String
deriving DecidableEq, Repr

/-- One row destined for `container_observations` — the 9-tuple appended by
`transform_records` in both importers, with the source's field order. -/
structure Observation where
  timestamp : Int
  user_email : String
  user_name : String
  node_name : String
  container_image : String
  container_base : String
  container_version : String
  age_seconds : Int
  pod_name : String
deriving DecidableEq, Repr

/-- `extract_container_info` — textually identical in the two importers:
split the image reference on the last colon for the version (`"latest"` when
there is no colon), then keep only what follows the last slash of the base. -/
def extract_container_info (container_name : String) : ContainerInfo :=
  let base := if container_name.toList.contains ':' then beforeLastStr ':' container_name
              else container_name
  let version := if container_name.toList.contains ':' then afterLastStr ':' container_name
                 else "latest"
  let base := if base.toList.contains '/' then afterLastStr '/' base else base
  { base := base, version := version }

/-! ## Time window generator

`generate_time_windows` is textually identical in the v1 and v2 importers.
The Python `while current < stop` loop only terminates when
`window_size_seconds` is positive (or `start >= stop`); `genWindowsLoop` is
the step-indexed embedding of the loop body (one fuel unit per iteration,
`none` = the loop is still running when the fuel runs out), and
`generate_time_windows` is its limit, defined by well-founded recursion on
`(stop - current).toNat` and returning `[]` where the source diverges.
-/

def genWindowsLoop (stop window_size_seconds : Int) :
    Nat → Int → Option (List (Int × Int))
  | 0, current => if current < stop then none else some []
  | n + 1, current =>
    if current < stop then
      (genWindowsLoop stop window_size_seconds n
          (min (current + window_size_seconds) stop)).map
        (fun rest => (current, min (current + window_size_seconds) stop) :: rest)
    else some []

def generate_time_windows (start stop window_size_seconds : Int) :
    List (Int × Int) :=
  if _h : start < stop ∧ 0 < window_size_seconds then
    (start, min (start + window_size_seconds) stop) ::
      generate_time_windows (min (start + window_size_seconds) stop) stop
        window_size_seconds
  else []
termination_by (stop - start).toNat
decreasing_by simp_wf; omega

/-- `chainCover a b l` says the windows in `l` tile the half-open interval
`[a, b)` exactly: each window starts where the previous one ended, is
non-empty, and the chain ends at `b`. -/
def chainCover : Int → Int → List (Int × Int) → Prop
  | a, b, [] => a = b
  | a, b, p :: rest => p.1 = a ∧ a < p.2 ∧ chainCover p.2 b rest

/-! ## Blackout window check (v1 importer)

`is_in_blocked_time_window` reads `datetime.now(timezone.utc).minute`; the
wall-clock minute is passed in as `current_minute`. -/

def is_in_blocked_time_window (current_minute : Nat)
    (minutes_before : Nat := 1) (minutes_after : Nat := 2) : Bool :=
  if current_minute ≥ 60 - minutes_before ∨ current_minute ≤ minutes_after then
    true
  else false

/-! ## v1 importer (`import_from_influxdb_v1.py`) -/

namespace V1

/-- A raw InfluxQL row as rebuilt by `query_influxdb`: a dict in which every
key the normalizer reads may be absent. -/
structure Record where
  time : Option Int
  pod_name : Option String
  container_name : Option String
  node_name : Option String
  image : Option String
  version : Option String
deriving DecidableEq, Repr

/-- Python `record.get(key) or "unknown"`: `None` and the empty string are
both falsy and replaced by the sentinel. -/
def orUnknown : Option String → String
  | none => "unknown"
  | some s => if s = "" then "unknown" else s

/-- The statistics dict returned by `transform_records`. -/
structure Stats where
  transformed : Nat
  skipped_no_pod_name : Nat
  skipped_not_jupyter : Nat
  duplicates_in_batch : Nat
deriving DecidableEq, Repr

/-- The generator `datetime.fromisoformat(r["time"]) for r in pod_records`:
`none` models the `KeyError`/parse failure Python raises when some matching
record has no usable timestamp. -/
def recordTimes : List Record → Option (List Int)
  | [] => some []
  | r :: rest =>
    match r.time, recordTimes rest with
    | some t, some ts => some (t :: ts)
    | _, _ => none

/-- `estimate_pod_age`: age of the sample at `timestamp` for `pod_name`,
measured from the earliest timestamp of any record in `all_records` carrying
the same pod name; `0` when no record matches; `none` models the exception
raised when a matching record has no timestamp. -/
def estimate_pod_age (timestamp : Int) (pod_name : String)
    (all_records : List Record) : Option Int :=
  let pod_records := all_records.filter (fun r => r.pod_name = some pod_name)
  if pod_records.isEmpty then some 0
  else
    match recordTimes pod_records with
    | none => none
    | some ts =>
      match listMin ts with
      | some earliest => some (timestamp - earliest)
      | none => some 0

/-- `extract_user_info_from_pod_name` (v1): strip `jupyter-`, drop the final
hyphen-delimited hash, synthesize `<user>@illinois.edu` and a title-cased
display name. -/
def extract_user_info_from_pod_name (pod_name : String) : UserInfo :=
  if pod_name = "" then { email := "unknown@illinois.edu", name := "Unknown User" }
  else if startsWithStr "jupyter-" pod_name then
    let username := rsplitHead '-' (dropStr 8 pod_name)
    { email := username ++ "@illinois.edu",
      name := pyTitle (replaceDashSpace username) }
  else { email := "unknown@illinois.edu", name := "Unknown User" }

/-- The tuple appended by `transform_records` for a record that passed every
filter (`ts`/`pod_name` are the already-resolved timestamp and pod name,
`age_seconds` the result of `estimate_pod_age`). -/
def mkObservation (r : Record) (ts : Int) (pod_name : String)
    (age_seconds : Int) : Observation :=
  let node_name := orUnknown r.node_name
  let image := orUnknown r.image
  let user_info := extract_user_info_from_pod_name pod_name
  let container_info := extract_container_info image
  let final_version :=
    match r.version with
    | none => container_info.version
    | some v => if v = "" then container_info.version else v
  { timestamp := ts,
    user_email := user_info.email,
    user_name := user_info.name,
    node_name := node_name,
    container_image := image,
    container_base := container_info.base,
    container_version := final_version,
    age_seconds := age_seconds,
    pod_name := pod_name }

/-- The per-record loop of `transform_records`: walks the batch with the
`seen_keys` set, returning the transformed tuples together with the
`skipped_no_pod_name` and `skipped_not_jupyter` counters (`none` models the
exception propagating out of `estimate_pod_age`). -/
def transformAux (all_records : List Record) :
    List Record → List (String × Int) → Option (List Observation × Nat × Nat)
  | [], _ => some ([], 0, 0)
  | r :: rest, seen =>
    match r.time with
    | none => transformAux all_records rest seen
    | some ts =>
      let pod_name := orUnknown r.pod_name
      if pod_name = "unknown" then
        (transformAux all_records rest seen).map
          (fun x => (x.1, x.2.1 + 1, x.2.2))
      else if ¬ startsWithStr "jupyter-" pod_name then
        (transformAux all_records rest seen).map
          (fun x => (x.1, x.2.1, x.2.2 + 1))
      else if (pod_name, ts) ∈ seen then
        transformAux all_records rest seen
      else
        match estimate_pod_age ts pod_name all_records with
        | none => none
        | some age =>
          (transformAux all_records rest ((pod_name, ts) :: seen)).map
            (fun x => (mkObservation r ts pod_name age :: x.1, x.2.1, x.2.2))

/-- `transform_records` (v1): the `duplicates_in_batch` statistic is computed
exactly as in the source, as the remainder
`len(records) - len(transformed) - skipped_no_pod_name - skipped_not_jupyter`. -/
def transform_records (records : List Record) :
    Option (List Observation × Stats) :=
  match transformAux records records [] with
  | none => none
  | some (t, n1, n2) =>
    some (t, { transformed := t.length,
               skipped_no_pod_name := n1,
               skipped_not_jupyter := n2,
               duplicates_in_batch := records.length - t.length - n1 - n2 })

/-! Specification-side views of the v1 normalizer, used to state theorems. -/

/-- A record that survives the three per-record filters that precede the
dedup check (timestamp present, pod name not the sentinel, pod name carrying
the `jupyter-` naming convention). -/
def passes (r : Record) : Bool :=
  r.time.isSome && (orUnknown r.pod_name ≠ "unknown")
    && startsWithStr "jupyter-" (orUnknown r.pod_name)

/-- The dedup key of a record (meaningful for records whose timestamp is
present). -/
def keyOf (r : Record) : String × Int := (orUnknown r.pod_name, r.time.getD 0)

/-- Keep only the first record bearing each dedup key (keys in `seen` are
dropped outright). -/
def keepFirstByKey : List (String × Int) → List Record → List Record
  | _, [] => []
  | seen, r :: rest =>
    if keyOf r ∈ seen then keepFirstByKey seen rest
    else r :: keepFirstByKey (keyOf r :: seen) rest

/-- Number of records whose dedup key already occurred earlier in the list
(or in `seen`). -/
def laterDupCount : List (String × Int) → List Record → Nat
  | _, [] => 0
  | seen, r :: rest =>
    if keyOf r ∈ seen then laterDupCount seen rest + 1
    else laterDupCount (keyOf r :: seen) rest

/-- Number of records dropped for lacking a timestamp. -/
def noTimeCount (rs : List Record) : Nat :=
  (rs.filter (fun r => r.time.isNone)).length

/-- The earliest timestamp carried by any record with the given pod name. -/
def earliestTimeFor (p : String) (rs : List Record) : Option Int :=
  listMin ((rs.filter (fun r => r.pod_name = some p)).filterMap (fun r => r.time))

/-- The observation the normalizer emits for record `r` of batch `all`:
its age is measured from the batch-wide earliest timestamp of its pod. -/
def specObservation (all : List Record) (r : Record) : Observation :=
  let ts := r.time.getD 0
  let pod_name := orUnknown r.pod_name
  mkObservation r ts pod_name (ts - (earliestTimeFor pod_name all).getD ts)

/-! User aggregation and the users-table upsert (v1). -/

/-- The per-email aggregate built by `extract_users_from_batch`. -/
structure UserAgg where
  user_id : String
  first_seen : Int
  last_seen : Int
deriving DecidableEq, Repr

/-- One step of `extract_users_from_batch`'s loop: seed a new email with
`first_seen = last_seen = timestamp`, otherwise widen the range. -/
def foldUser (users : List (String × UserAgg)) (o : Observation) :
    List (String × UserAgg) :=
  let user_id :=
    if startsWithStr "jupyter-" o.pod_name then rsplitHead '-' (dropStr 8 o.pod_name)
    else "unknown"
  match lookupL o.user_email users with
  | none => users ++ [(o.user_email, ⟨user_id, o.timestamp, o.timestamp⟩)]
  | some _ =>
    users.map (fun p =>
      if p.1 = o.user_email then
        (p.1, ⟨p.2.user_id, min p.2.first_seen o.timestamp,
               max p.2.last_seen o.timestamp⟩)
      else p)

/-- `extract_users_from_batch`: fold the transformed observations into a
per-email `{user_id, first_seen, last_seen}` dict (insertion-ordered). -/
def extract_users_from_batch (transformed : List Observation) :
    List (String × UserAgg) :=
  transformed.foldl foldUser []

/-- A row of the destination `users` table. -/
structure UserRow where
  email : String
  user_id : String
  full_name : String
  first_seen : Int
  last_seen : Int
deriving DecidableEq, Repr

/-- One parameter set of the batched upsert in `upsert_users`, modelled from
the SQL in the source: `INSERT INTO users (email, user_id, full_name,
first_seen, last_seen) VALUES (%s, %s, split_part(%s, '@', 1), %s, %s)
ON CONFLICT (email) DO UPDATE SET first_seen = LEAST(users.first_seen,
EXCLUDED.first_seen), last_seen = GREATEST(users.last_seen,
EXCLUDED.last_seen)` — on conflict only the two timestamps are widened. -/
def applyUserUpsert (table : List UserRow) (email : String) (d : UserAgg) :
    List UserRow :=
  if table.any (fun row => row.email = email) then
    table.map (fun row =>
      if row.email = email then
        { row with first_seen := min row.first_seen d.first_seen,
                   last_seen := max row.last_seen d.last_seen }
      else row)
  else
    table ++ [{ email := email, user_id := d.user_id,
                full_name := emailLocalPart email,
                first_seen := d.first_seen, last_seen := d.last_seen }]

/-- `upsert_users`: apply the batched upsert for every aggregated user. -/
def upsert_users (table : List UserRow) (users : List (String × UserAgg)) :
    List UserRow :=
  users.foldl (fun t p => applyUserUpsert t p.1 p.2) table

/-- `SELECT`ing a user row by email (first matching row). -/
def findUser (email : String) : List UserRow → Option UserRow
  | [] => none
  | row :: rest => if row.email = email then some row else findUser email rest

end V1

/-! ## v2 importer (`import_from_influxdb_v2.py`) -/

namespace V2

/-- A raw Flux row as built by `query_influxdb` (v2): that adapter populates
every key (defaulting to `"unknown"`), so all fields are total and the
`.get(key, default)` calls in `transform_records` never see a missing key. -/
structure Record where
  time : Int
  pod_name : String
  container_name : String
  node_name : String
  namespace_name : String
  state : String
  phase : String
  image : String
  version : String
deriving DecidableEq, Repr

/-- The first pass of `transform_records` (v2): build the
`pod_first_seen` dict mapping each pod name to its earliest timestamp in the
batch. -/
def pod_first_seen_map : List Record → List (String × Int) → List (String × Int)
  | [], acc => acc
  | r :: rest, acc =>
    match lookupL r.pod_name acc with
    | none => pod_first_seen_map rest ((r.pod_name, r.time) :: acc)
    | some t0 =>
      if r.time < t0 then
        pod_first_seen_map rest
          (acc.map (fun p => if p.1 = r.pod_name then (p.1, r.time) else p))
      else pod_first_seen_map rest acc

/-- `extract_user_info_from_pod_name` (v2): identical derivation to v1 except
that the synthesized email domain is spelled `ilinois.edu` in this file. -/
def extract_user_info_from_pod_name (pod_name : String) : UserInfo :=
  if startsWithStr "jupyter-" pod_name then
    let username := rsplitHead '-' (dropStr 8 pod_name)
    { email := username ++ "@ilinois.edu",
      name := pyTitle (replaceDashSpace username) }
  else { email := "unknown@ilinois.edu", name := "Unknown User" }

/-- The tuple appended by `transform_records` (v2) for a running record,
given the prebuilt `pod_first_seen` dict `m`. -/
def mkObservation (m : List (String × Int)) (r : Record) : Observation :=
  let user_info := extract_user_info_from_pod_name r.pod_name
  let container_info := extract_container_info r.image
  let final_version :=
    if r.version ≠ "" ∧ r.version ≠ "unknown" then r.version
    else container_info.version
  let first_seen := (lookupL r.pod_name m).getD r.time
  { timestamp := r.time,
    user_email := user_info.email,
    user_name := user_info.name,
    node_name := r.node_name,
    container_image := r.image,
    container_base := container_info.base,
    container_version := final_version,
    age_seconds := r.time - first_seen,
    pod_name := r.pod_name }

/-- `transform_records` (v2): two passes — index pod → earliest timestamp,
then keep the records whose lowercased `state` or `phase` is `"running"`
(there is no pod-name filtering in this function). -/
def transform_records (records : List Record) : List Observation :=
  let m := pod_first_seen_map records []
  records.filterMap (fun r =>
    if pyLower r.state ≠ "running" ∧ pyLower r.phase ≠ "running" then none
    else some (mkObservation m r))

/-- The earliest timestamp carried by any record with the given pod name. -/
def earliestTimeFor (p : String) (rs : List Record) : Option Int :=
  listMin ((rs.filter (fun r => r.pod_name = p)).map (fun r => r.time))

end V2

/-! ## Concrete inputs used by witnesses and counterexamples -/

/-- A running v1 sample of pod `jupyter-bob-aa11` at time `t`. -/
def bobV1 (t : Int) : V1.Record :=
  { time := some t, pod_name := some "jupyter-bob-aa11",
    container_name := none, node_name := none, image := none, version := none }

/-- A running v2 sample of pod `jupyter-bob-aa11` at time `t`. -/
def bobV2 (t : Int) : V2.Record :=
  { time := t, pod_name := "jupyter-bob-aa11", container_name := "notebook",
    node_name := "node-1", namespace_name := "jupyterhub",
    state := "running", phase := "running", image := "img", version := "unknown" }

/-- The observation v1 emits for the batch `[bobV1 0]`. -/
def bobObs0 : Observation :=
  { timestamp := 0, user_email := "bob@illinois.edu", user_name := "Bob",
    node_name := "unknown", container_image := "unknown",
    container_base := "unknown", container_version := "latest",
    age_seconds := 0, pod_name := "jupyter-bob-aa11" }

/-- A running v2 sample whose pod name lacks the `jupyter-` naming
convention. -/
def hubV2 : V2.Record :=
  { time := 0, pod_name := "hub-1", container_name := "hub",
    node_name := "node-1", namespace_name := "jupyterhub",
    state := "running", phase := "running", image := "img", version := "unknown" }

/-- A v1 sample with no timestamp. -/
def noTimeV1 : V1.Record :=
  { time := none, pod_name := some "jupyter-a-b1", container_name := none,
    node_name := none, image := none, version := none }

/-- A v1 sample whose upstream version tag is the `"unknown"` sentinel while
its image reference carries version `v2.1`. -/
def unkVerV1 : V1.Record :=
  { time := some 0, pod_name := some "jupyter-a-b1", container_name := none,
    node_name := none, image := some "registry.example.com/org/image:v2.1",
    version := some "unknown" }

/-- An observation for user `u` (pod `jupyter-u-x1`) at time `t`, as in the
C7 overlapping-import scenario. -/
def obsU (t : Int) : Observation :=
  { timestamp := t, user_email := "u@illinois.edu", user_name := "U",
    node_name := "n", container_image := "img", container_base := "img",
    container_version := "latest", age_seconds := 0, pod_name := "jupyter-u-x1" }

/-- The container-version rule the v1 normalizer actually applies: the
upstream tag wins whenever it is present and non-empty (Python truthiness),
even when it is the `"unknown"` sentinel. -/
def v1VersionRule (r : V1.Record) : String :=
  match r.version with
  | none => (extract_container_info (V1.orUnknown r.image)).version
  | some v =>
    if v = "" then (extract_container_info (V1.orUnknown r.image)).version else v

/-- The container-version rule the v2 normalizer applies: the upstream tag
wins only when present, non-empty and not the `"unknown"` sentinel. -/
def v2VersionRule (r : V2.Record) : String :=
  if r.version ≠ "" ∧ r.version ≠ "unknown" then r.version
  else (extract_container_info r.image).version

/-- The observation v2 emits for the batch `[hubV2]`. -/
def hubObs : Observation :=
  { timestamp := 0, user_email := "unknown@ilinois.edu",
    user_name := "Unknown User", node_name := "node-1",
    container_image := "img", container_base := "img",
    container_version := "latest", age_seconds := 0, pod_name := "hub-1" }

/-- The observation v2 emits for the batch `[bobV2 0]`. -/
def bobObs0V2 : Observation :=
  { timestamp := 0, user_email := "bob@ilinois.edu", user_name := "Bob",
    node_name := "node-1", container_image := "img", container_base := "img",
    container_version := "latest", age_seconds := 0,
    pod_name := "jupyter-bob-aa11" }

/-- A pre-existing `users` row for the C7 witness. -/
def uRow : V1.UserRow :=
  { email := "u@illinois.edu", user_id := "u", full_name := "u",
    first_seen := 0, last_seen := 3 }

/-! # Theorems -/

/-! ## Time windows: C2 and C10 -/

theorem generate_time_windows_stop (start stop w : Int)
    (h : ¬(start < stop ∧ 0 < w)) : generate_time_windows start stop w = [] := by
  rw [generate_time_windows]
  simp [h]

theorem generate_time_windows_step (start stop w : Int)
    (h1 : start < stop) (h2 : 0 < w) :
    generate_time_windows start stop w =
      (start, min (start + w) stop) ::
        generate_time_windows (min (start + w) stop) stop w := by
  rw [generate_time_windows]
  simp [h1, h2]

theorem chainCover_lb {a b : Int} {l : List (Int × Int)}
    (h : chainCover a b l) : ∀ q ∈ l, a ≤ q.1 := by
  induction l generalizing a with
  | nil => intro q hq; cases hq
  | cons p rest ih =>
    obtain ⟨h1, h2, h3⟩ := h
    intro q hq
    rcases List.mem_cons.mp hq with rfl | hq
    · omega
    · have := ih h3 q hq
      omega

theorem chainCover_pairwise {a b : Int} {l : List (Int × Int)}
    (h : chainCover a b l) : l.Pairwise (fun p q => p.2 ≤ q.1) := by
  induction l generalizing a with
  | nil => exact List.Pairwise.nil
  | cons p rest ih =>
    obtain ⟨h1, h2, h3⟩ := h
    exact List.Pairwise.cons (fun q hq => chainCover_lb h3 q hq) (ih h3)

theorem chainCover_getLast {a b : Int} {l : List (Int × Int)}
    (h : chainCover a b l) (hne : l ≠ []) :
    l.getLast?.map Prod.snd = some b := by
  induction l generalizing a with
  | nil => exact absurd rfl hne
  | cons p rest ih =>
    obtain ⟨h1, h2, h3⟩ := h
    cases rest with
    | nil =>
      cases h3
      rfl
    | cons q t =>
      rw [List.getLast?_cons_cons]
      exact ih h3 (by simp)

theorem generate_time_windows_chainCover (stop w : Int) (hw : 0 < w) :
    ∀ (n : Nat) (start : Int), (stop - start).toNat ≤ n → start ≤ stop →
      chainCover start stop (generate_time_windows start stop w) := by
  intro n
  induction n with
  | zero =>
    intro start hn hle
    have : start = stop := by omega
    subst this
    rw [generate_time_windows_stop _ _ _ (by omega)]
    rfl
  | succ n ih =>
    intro start hn hle
    by_cases hlt : start < stop
    · rw [generate_time_windows_step _ _ _ hlt hw]
      refine ⟨rfl, by omega, ?_⟩
      exact ih (min (start + w) stop) (by omega) (by omega)
    · have : start = stop := by omega
      subst this
      rw [generate_time_windows_stop _ _ _ (by omega)]
      rfl

theorem generate_time_windows_width (stop w : Int) (hw : 0 < w) :
    ∀ (n : Nat) (start : Int), (stop - start).toNat ≤ n →
      ∀ p ∈ generate_time_windows start stop w, p.2 - p.1 ≤ w := by
  intro n
  induction n with
  | zero =>
    intro start hn p hp
    rw [generate_time_windows_stop _ _ _ (by omega)] at hp
    cases hp
  | succ n ih =>
    intro start hn p hp
    by_cases hlt : start < stop
    · rw [generate_time_windows_step _ _ _ hlt hw] at hp
      rcases List.mem_cons.mp hp with rfl | hp
      · simp; omega
      · exact ih (min (start + w) stop) (by omega) p hp
    · rw [generate_time_windows_stop _ _ _ (by omega)] at hp
      cases hp

/-- C2: for `start < stop` and positive `windowSeconds` the generated windows
are a contiguous, non-overlapping, exact tiling of `[start, stop)` (first
window starts at `start`, last ends at `stop`, each window's end is the next
one's start), every window has length at most `windowSeconds`; and
`start = stop` or `start > stop` yields the empty list. -/
theorem c2_time_windows_tile (start stop w : Int) :
    (0 < w → start < stop →
      chainCover start stop (generate_time_windows start stop w) ∧
      (generate_time_windows start stop w).Pairwise (fun p q => p.2 ≤ q.1) ∧
      (generate_time_windows start stop w).head?.map Prod.fst = some start ∧
      (generate_time_windows start stop w).getLast?.map Prod.snd = some stop ∧
      (∀ p ∈ generate_time_windows start stop w, p.2 - p.1 ≤ w)) ∧
    (start = stop ∨ stop < start → generate_time_windows start stop w = []) := by
  constructor
  · intro hw hlt
    have hchain :=
      generate_time_windows_chainCover stop w hw (stop - start).toNat start
        (by omega) (by omega)
    refine ⟨hchain, chainCover_pairwise hchain, ?_, ?_, ?_⟩
    · rw [generate_time_windows_step _ _ _ hlt hw]
      rfl
    · refine chainCover_getLast hchain ?_
      rw [generate_time_windows_step _ _ _ hlt hw]
      simp
    · exact generate_time_windows_width stop w hw (stop - start).toNat start
        (by omega)
  · intro h
    exact generate_time_windows_stop _ _ _ (by omega)

theorem c2_time_windows_tile_witness :
    (chainCover 0 2 (generate_time_windows 0 2 1) ∧
      (generate_time_windows 0 2 1).Pairwise (fun p q => p.2 ≤ q.1) ∧
      (generate_time_windows 0 2 1).head?.map Prod.fst = some 0 ∧
      (generate_time_windows 0 2 1).getLast?.map Prod.snd = some 2 ∧
      (∀ p ∈ generate_time_windows 0 2 1, p.2 - p.1 ≤ 1)) ∧
    generate_time_windows 5 5 7 = [] :=
  ⟨(c2_time_windows_tile 0 2 1).1 (by omega) (by omega),
   (c2_time_windows_tile 5 5 7).2 (Or.inl rfl)⟩

/-- C10: with strictly positive `window_size_seconds` the loop embedded in
`genWindowsLoop` terminates for every `start`/`stop` pair — fuel
`(stop - start).toNat` suffices and the loop's value is
`generate_time_windows` — while for `window_size_seconds = 0` and
`start < stop` the loop never advances: no amount of fuel makes it return. -/
theorem c10_time_windows_termination (start stop w : Int) :
    (0 < w → ∀ n : Nat, (stop - start).toNat ≤ n →
      genWindowsLoop stop w n start =
        some (generate_time_windows start stop w)) ∧
    (w = 0 → start < stop → ∀ n : Nat, genWindowsLoop stop w n start = none) := by
  constructor
  · intro hw n
    induction n generalizing start with
    | zero =>
      intro hn
      have hge : ¬ start < stop := by omega
      simp only [genWindowsLoop, hge, if_false]
      rw [generate_time_windows_stop _ _ _ (by omega)]
    | succ n ih =>
      intro hn
      by_cases hlt : start < stop
      · simp only [genWindowsLoop, hlt, if_true]
        rw [ih (min (start + w) stop) (by omega)]
        rw [generate_time_windows_step _ _ _ hlt hw]
        rfl
      · simp only [genWindowsLoop, hlt, if_false]
        rw [generate_time_windows_stop _ _ _ (by omega)]
  · intro hw hlt n
    subst hw
    induction n with
    | zero => simp only [genWindowsLoop, hlt, if_true]
    | succ n ih =>
      have : min (start + 0) stop = start := by omega
      simp only [genWindowsLoop, hlt, if_true, this, ih, Option.map_none']

theorem c10_time_windows_termination_witness :
    genWindowsLoop 2 1 2 0 = some (generate_time_windows 0 2 1) ∧
    genWindowsLoop 1 0 5 0 = none :=
  ⟨(c10_time_windows_termination 0 2 1).1 (by omega) 2 (by omega),
   (c10_time_windows_termination 0 1 0).2 rfl (by omega) 5⟩

/-! ## Small list lemmas for the normalizer proofs -/

theorem listMin_cons (x : Int) (l : List Int) :
    listMin (x :: l) = optMin (some x) (listMin l) := by
  cases h : listMin l <;> simp [listMin, optMin, h]

theorem listMin_eq_none {l : List Int} : listMin l = none ↔ l = [] := by
  cases l <;> simp [listMin]

theorem listMin_le {l : List Int} {m : Int} (h : listMin l = some m) :
    ∀ x ∈ l, m ≤ x := by
  induction l generalizing m with
  | nil => intro x hx; cases hx
  | cons t rest ih =>
    intro x hx
    rcases List.mem_cons.mp hx with rfl | hx
    · cases hr : listMin rest <;> simp [listMin, hr] at h <;> omega
    · cases hr : listMin rest with
      | none =>
        rw [listMin_eq_none] at hr
        subst hr
        cases hx
      | some m' =>
        have := ih hr x hx
        simp [listMin, hr] at h
        omega


theorem listMin_of_mem {l : List Int} {x : Int} (hx : x ∈ l) :
    ∃ m, listMin l = some m ∧ m ≤ x := by
  cases hl : listMin l with
  | none =>
    rw [listMin_eq_none] at hl
    subst hl
    cases hx
  | some m => exact ⟨m, rfl, listMin_le hl x hx⟩

namespace V1

theorem recordTimes_eq_filterMap {l : List Record} {ts : List Int}
    (h : recordTimes l = some ts) : l.filterMap (fun r => r.time) = ts := by
  induction l generalizing ts with
  | nil =>
    simp [recordTimes] at h
    simp [← h]
  | cons r rest ih =>
    cases htime : r.time with
    | none => simp [recordTimes, htime] at h
    | some t =>
      cases hrest : recordTimes rest with
      | none => simp [recordTimes, htime, hrest] at h
      | some ts' =>
        simp [recordTimes, htime, hrest] at h
        simp [List.filterMap_cons, htime, ih hrest, h]

theorem orUnknown_some {o : Option String} (h : orUnknown o ≠ "unknown") :
    o = some (orUnknown o) := by
  cases o with
  | none => simp [orUnknown] at h
  | some s =>
    by_cases hs : s = ""
    · simp [orUnknown, hs] at h
    · simp [orUnknown, hs]

theorem keepFirstByKey_cons (seen : List (String × Int)) (r : Record)
    (rest : List Record) :
    keepFirstByKey seen (r :: rest) =
      if keyOf r ∈ seen then keepFirstByKey seen rest
      else r :: keepFirstByKey (keyOf r :: seen) rest := rfl

theorem laterDupCount_cons (seen : List (String × Int)) (r : Record)
    (rest : List Record) :
    laterDupCount seen (r :: rest) =
      if keyOf r ∈ seen then laterDupCount seen rest + 1
      else laterDupCount (keyOf r :: seen) rest := rfl

theorem keepFirstByKey_subset {seen : List (String × Int)} {l : List Record}
    {r : Record} (h : r ∈ keepFirstByKey seen l) : r ∈ l := by
  induction l generalizing seen with
  | nil => cases h
  | cons x rest ih =>
    by_cases hx : keyOf x ∈ seen
    · rw [keepFirstByKey_cons, if_pos hx] at h
      exact List.mem_cons_of_mem _ (ih h)
    · rw [keepFirstByKey_cons, if_neg hx] at h
      rcases List.mem_cons.mp h with rfl | h
      · exact List.mem_cons_self _ _
      · exact List.mem_cons_of_mem _ (ih h)

/-- `estimate_pod_age`, when it returns, measures from the batch-wide
earliest timestamp of the pod (and from the sample itself when the pod never
occurs in the batch). -/
theorem estimate_pod_age_eq {ts : Int} {p : String} {all : List Record}
    {a : Int} (h : estimate_pod_age ts p all = some a) :
    a = ts - (earliestTimeFor p all).getD ts := by
  simp only [estimate_pod_age] at h
  split at h
  next hemp =>
    have hnil : all.filter (fun r => r.pod_name = some p) = [] :=
      List.isEmpty_iff.mp hemp
    injection h with h'
    simp only [earliestTimeFor, hnil, List.filterMap_nil, listMin,
      Option.getD_none]
    omega
  next hemp =>
    split at h
    next hrt => cases h
    next tsl hrt =>
      split at h
      next m hmin =>
        injection h with h'
        simp only [earliestTimeFor, recordTimes_eq_filterMap hrt, hmin,
          Option.getD_some]
        omega
      next hmin =>
        rw [listMin_eq_none] at hmin
        subst hmin
        cases hpr : all.filter (fun r => r.pod_name = some p) with
        | nil => rw [hpr] at hemp; simp at hemp
        | cons r0 rest =>
          rw [hpr] at hrt
          cases ht0 : r0.time <;> cases hr0 : recordTimes rest <;>
            simp [recordTimes, ht0, hr0] at hrt

end V1

/-- The master characterization of the v1 per-record loop: the emitted
observations are exactly the batch-earliest-age observations of the first
passing record of each dedup key, and the records of the batch are
partitioned between emitted, sentinel-pod, non-jupyter-pod, key-duplicate
and missing-timestamp ones. -/
theorem transformAux_master (all : List V1.Record) :
    ∀ (rs : List V1.Record) (seen : List (String × Int))
      (t : List Observation) (n1 n2 : Nat),
      V1.transformAux all rs seen = some (t, n1, n2) →
      t = (V1.keepFirstByKey seen (rs.filter V1.passes)).map
            (V1.specObservation all) ∧
      t.length + n1 + n2 + V1.laterDupCount seen (rs.filter V1.passes)
        + V1.noTimeCount rs = rs.length := by
  intro rs
  induction rs with
  | nil =>
    intro seen t n1 n2 h
    simp only [V1.transformAux, Option.some.injEq, Prod.mk.injEq] at h
    obtain ⟨ht, hn1, hn2⟩ := h
    subst ht; subst hn1; subst hn2
    simp [V1.keepFirstByKey, V1.laterDupCount, V1.noTimeCount]
  | cons r rest ih =>
    intro seen t n1 n2 h
    cases htime : r.time with
    | none =>
      simp only [V1.transformAux, htime] at h
      have hp : ¬ V1.passes r = true := by simp [V1.passes, htime]
      have hfilter : (r :: rest).filter V1.passes = rest.filter V1.passes :=
        List.filter_cons_of_neg hp
      have hnt : V1.noTimeCount (r :: rest) = V1.noTimeCount rest + 1 := by
        simp [V1.noTimeCount, htime]
      obtain ⟨ih1, ih2⟩ := ih seen t n1 n2 h
      rw [hfilter, hnt]
      refine ⟨ih1, ?_⟩
      simp only [List.length_cons]
      omega
    | some ts =>
      simp only [V1.transformAux, htime] at h
      by_cases hunk : V1.orUnknown r.pod_name = "unknown"
      · rw [if_pos hunk] at h
        cases haux : V1.transformAux all rest seen with
        | none => rw [haux] at h; cases h
        | some x =>
          obtain ⟨x1, x2, x3⟩ := x
          rw [haux] at h
          simp only [Option.map_some', Option.some.injEq, Prod.mk.injEq] at h
          obtain ⟨ht, hn1, hn2⟩ := h
          subst ht; subst hn1; subst hn2
          have hp : ¬ V1.passes r = true := by simp [V1.passes, hunk]
          have hfilter : (r :: rest).filter V1.passes = rest.filter V1.passes :=
            List.filter_cons_of_neg hp
          have hnt : V1.noTimeCount (r :: rest) = V1.noTimeCount rest := by
            simp [V1.noTimeCount, htime]
          obtain ⟨ih1, ih2⟩ := ih seen x1 x2 x3 haux
          rw [hfilter, hnt]
          refine ⟨ih1, ?_⟩
          simp only [List.length_cons]
          omega
      · rw [if_neg hunk] at h
        by_cases hjup : startsWithStr "jupyter-" (V1.orUnknown r.pod_name) = true
        · rw [if_neg (by simpa using hjup)] at h
          have hp : V1.passes r = true := by
            simp [V1.passes, htime, hunk, hjup]
          have hfilter : (r :: rest).filter V1.passes
              = r :: rest.filter V1.passes := List.filter_cons_of_pos hp
          have hkey : V1.keyOf r = (V1.orUnknown r.pod_name, ts) := by
            simp [V1.keyOf, htime]
          have hnt : V1.noTimeCount (r :: rest) = V1.noTimeCount rest := by
            simp [V1.noTimeCount, htime]
          by_cases hseen : (V1.orUnknown r.pod_name, ts) ∈ seen
          · rw [if_pos hseen] at h
            obtain ⟨ih1, ih2⟩ := ih seen t n1 n2 h
            constructor
            · rw [hfilter, V1.keepFirstByKey_cons,
                if_pos (by rw [hkey]; exact hseen)]
              exact ih1
            · rw [hfilter, V1.laterDupCount_cons,
                if_pos (by rw [hkey]; exact hseen), hnt]
              simp only [List.length_cons]
              omega
          · rw [if_neg hseen] at h
            cases hest : V1.estimate_pod_age ts (V1.orUnknown r.pod_name) all with
            | none => rw [hest] at h; cases h
            | some age =>
              rw [hest] at h
              cases haux : V1.transformAux all rest
                  ((V1.orUnknown r.pod_name, ts) :: seen) with
              | none => rw [haux] at h; cases h
              | some x =>
                obtain ⟨x1, x2, x3⟩ := x
                rw [haux] at h
                simp only [Option.map_some', Option.some.injEq,
                  Prod.mk.injEq] at h
                obtain ⟨ht, hn1, hn2⟩ := h
                subst ht; subst hn1; subst hn2
                obtain ⟨ih1, ih2⟩ :=
                  ih ((V1.orUnknown r.pod_name, ts) :: seen) x1 x2 x3 haux
                have hspec : V1.mkObservation r ts (V1.orUnknown r.pod_name) age
                    = V1.specObservation all r := by
                  have hage := V1.estimate_pod_age_eq hest
                  simp [V1.specObservation, htime, hage]
                constructor
                · rw [hfilter, V1.keepFirstByKey_cons,
                    if_neg (by rw [hkey]; exact hseen), List.map_cons, hkey,
                    hspec, ih1]
                · rw [hfilter, V1.laterDupCount_cons,
                    if_neg (by rw [hkey]; exact hseen), hkey, hnt]
                  simp only [List.length_cons]
                  omega
        · rw [if_pos hjup] at h
          cases haux : V1.transformAux all rest seen with
          | none => rw [haux] at h; cases h
          | some x =>
            obtain ⟨x1, x2, x3⟩ := x
            rw [haux] at h
            simp only [Option.map_some', Option.some.injEq, Prod.mk.injEq] at h
            obtain ⟨ht, hn1, hn2⟩ := h
            subst ht; subst hn1; subst hn2
            have hsw : startsWithStr "jupyter-" (V1.orUnknown r.pod_name)
                = false := by simpa using hjup
            have hp : ¬ V1.passes r = true := by simp [V1.passes, hsw]
            have hfilter : (r :: rest).filter V1.passes
                = rest.filter V1.passes := List.filter_cons_of_neg hp
            have hnt : V1.noTimeCount (r :: rest) = V1.noTimeCount rest := by
              simp [V1.noTimeCount, htime]
            obtain ⟨ih1, ih2⟩ := ih seen x1 x2 x3 haux
            rw [hfilter, hnt]
            refine ⟨ih1, ?_⟩
            simp only [List.length_cons]
            omega

/-! ## v1 normalizer corollaries -/

theorem passes_parts {r : V1.Record} (h : V1.passes r = true) :
    ∃ ts, r.time = some ts ∧ r.pod_name = some (V1.orUnknown r.pod_name) ∧
      startsWithStr "jupyter-" (V1.orUnknown r.pod_name) = true := by
  simp only [V1.passes, Bool.and_eq_true, decide_eq_true_eq] at h
  obtain ⟨⟨hsome, hunk⟩, hjup⟩ := h
  cases htime : r.time with
  | none => rw [htime] at hsome; cases hsome
  | some ts => exact ⟨ts, rfl, V1.orUnknown_some hunk, hjup⟩

theorem transform_records_some {rs : List V1.Record} {t : List Observation}
    {s : V1.Stats} (h : V1.transform_records rs = some (t, s)) :
    ∃ n1 n2, V1.transformAux rs rs [] = some (t, n1, n2) ∧
      s = { transformed := t.length, skipped_no_pod_name := n1,
            skipped_not_jupyter := n2,
            duplicates_in_batch := rs.length - t.length - n1 - n2 } := by
  unfold V1.transform_records at h
  cases haux : V1.transformAux rs rs [] with
  | none => rw [haux] at h; cases h
  | some x =>
    obtain ⟨x1, x2, x3⟩ := x
    rw [haux] at h
    simp only [Option.some.injEq, Prod.mk.injEq] at h
    obtain ⟨ht, hs⟩ := h
    subst ht
    exact ⟨x2, x3, rfl, hs.symm⟩

/-- C4: the four statistics returned by the v1 normalizer always account for
every input record exactly once, and the empty batch yields all-zero
statistics. -/
theorem c4_stats_partition :
    (∀ (rs : List V1.Record) (t : List Observation) (s : V1.Stats),
      V1.transform_records rs = some (t, s) →
      s.transformed + s.skipped_no_pod_name + s.skipped_not_jupyter +
        s.duplicates_in_batch = rs.length) ∧
    V1.transform_records [] =
      some ([], { transformed := 0, skipped_no_pod_name := 0,
                  skipped_not_jupyter := 0, duplicates_in_batch := 0 }) := by
  constructor
  · intro rs t s h
    obtain ⟨n1, n2, haux, hs⟩ := transform_records_some h
    obtain ⟨-, hlen⟩ := transformAux_master rs rs [] t n1 n2 haux
    subst hs
    show t.length + n1 + n2 + (rs.length - t.length - n1 - n2) = rs.length
    omega
  · rfl

theorem c4_stats_partition_witness :
    ({ transformed := 1, skipped_no_pod_name := 0, skipped_not_jupyter := 0,
       duplicates_in_batch := 0 } : V1.Stats).transformed +
      ({ transformed := 1, skipped_no_pod_name := 0, skipped_not_jupyter := 0,
         duplicates_in_batch := 0 } : V1.Stats).skipped_no_pod_name +
      ({ transformed := 1, skipped_no_pod_name := 0, skipped_not_jupyter := 0,
         duplicates_in_batch := 0 } : V1.Stats).skipped_not_jupyter +
      ({ transformed := 1, skipped_no_pod_name := 0, skipped_not_jupyter := 0,
         duplicates_in_batch := 0 } : V1.Stats).duplicates_in_batch =
      [bobV1 0].length :=
  c4_stats_partition.1 [bobV1 0] [bobObs0]
    { transformed := 1, skipped_no_pod_name := 0, skipped_not_jupyter := 0,
      duplicates_in_batch := 0 } (by decide)

/-- C3 (amended): in the v1 importer every emitted observation's pod name
carries the `jupyter-` naming convention; the v2 importer's
`transform_records` applies no pod-name filtering, so it can emit
observations whose pod name lacks the convention. -/
theorem c3_jupyter_filter :
    (∀ (rs : List V1.Record) (t : List Observation) (s : V1.Stats),
      V1.transform_records rs = some (t, s) → ∀ o ∈ t,
        startsWithStr "jupyter-" o.pod_name = true) ∧
    (∃ (rs : List V2.Record) (o : Observation),
      o ∈ V2.transform_records rs ∧
        startsWithStr "jupyter-" o.pod_name = false) := by
  constructor
  · intro rs t s h o ho
    obtain ⟨n1, n2, haux, -⟩ := transform_records_some h
    obtain ⟨ht, -⟩ := transformAux_master rs rs [] t n1 n2 haux
    subst ht
    obtain ⟨r, hr, hro⟩ := List.mem_map.mp ho
    have hrf := List.mem_filter.mp (V1.keepFirstByKey_subset hr)
    obtain ⟨ts, -, -, hjup⟩ := passes_parts hrf.2
    rw [← hro]
    exact hjup
  · exact ⟨[hubV2], hubObs, by decide, by decide⟩

theorem c3_jupyter_filter_witness :
    startsWithStr "jupyter-" bobObs0.pod_name = true :=
  c3_jupyter_filter.1 [bobV1 0] [bobObs0]
    { transformed := 1, skipped_no_pod_name := 0, skipped_not_jupyter := 0,
      duplicates_in_batch := 0 } (by decide) bobObs0 (by decide)

/-- C3 counterexample: the v2 normalizer emits the running pod `hub-1`
verbatim although its name lacks the `jupyter-` naming convention, so the
claim is false for the v2 importer. -/
theorem c3_counterexample :
    (V2.transform_records [hubV2]).map (fun o => o.pod_name) = ["hub-1"] ∧
    startsWithStr "jupyter-" "hub-1" = false := by
  exact ⟨by decide, by decide⟩

/-- C5 (amended): within a batch only the first record of each
`(pod_name, timestamp)` key is emitted, and `duplicatesInBatch` counts one
per subsequent duplicate occurrence plus one per record dropped for lacking
a timestamp. -/
theorem c5_dedup_first_and_count :
    ∀ (rs : List V1.Record) (t : List Observation) (s : V1.Stats),
      V1.transform_records rs = some (t, s) →
      t = (V1.keepFirstByKey [] (rs.filter V1.passes)).map
            (V1.specObservation rs) ∧
      s.duplicates_in_batch =
        V1.laterDupCount [] (rs.filter V1.passes) + V1.noTimeCount rs := by
  intro rs t s h
  obtain ⟨n1, n2, haux, hs⟩ := transform_records_some h
  obtain ⟨ht, hlen⟩ := transformAux_master rs rs [] t n1 n2 haux
  refine ⟨ht, ?_⟩
  subst hs
  show rs.length - t.length - n1 - n2 = _
  omega

theorem c5_dedup_first_and_count_witness :
    [bobObs0] = (V1.keepFirstByKey [] ([bobV1 0].filter V1.passes)).map
        (V1.specObservation [bobV1 0]) ∧
    ({ transformed := 1, skipped_no_pod_name := 0, skipped_not_jupyter := 0,
       duplicates_in_batch := 0 } : V1.Stats).duplicates_in_batch =
      V1.laterDupCount [] ([bobV1 0].filter V1.passes) +
        V1.noTimeCount [bobV1 0] :=
  c5_dedup_first_and_count [bobV1 0] [bobObs0]
    { transformed := 1, skipped_no_pod_name := 0, skipped_not_jupyter := 0,
      duplicates_in_batch := 0 } (by decide)

/-- C5 counterexample: a single record with no timestamp is counted in
`duplicates_in_batch` (which the source computes as a remainder) although
the batch contains no two records sharing a dedup key. -/
theorem c5_counterexample :
    V1.transform_records [noTimeV1] =
      some ([], { transformed := 0, skipped_no_pod_name := 0,
                  skipped_not_jupyter := 0, duplicates_in_batch := 1 }) ∧
    V1.laterDupCount [] [noTimeV1] = 0 ∧
    V1.laterDupCount [] ([noTimeV1].filter V1.passes) = 0 := by
  exact ⟨by decide, by decide, by decide⟩

/-! ## v2 normalizer lemmas -/

theorem lookupL_map_update_self {β : Type} (key : String) (v : β)
    (l : List (String × β)) (h : (lookupL key l).isSome = true) :
    lookupL key (l.map (fun p => if p.1 = key then (p.1, v) else p))
      = some v := by
  induction l with
  | nil => simp [lookupL] at h
  | cons p rest ih =>
    obtain ⟨a, b⟩ := p
    by_cases hak : a = key
    · have hhead : (if (a, b).1 = key then ((a, b).1, v) else (a, b))
          = (a, v) := by simp [hak]
      rw [List.map_cons, hhead, lookupL, if_pos hak]
    · have hhead : (if (a, b).1 = key then ((a, b).1, v) else (a, b))
          = (a, b) := by simp [hak]
      rw [lookupL, if_neg hak] at h
      rw [List.map_cons, hhead, lookupL, if_neg hak]
      exact ih h

theorem lookupL_map_update_ne {β : Type} (k key : String) (v : β)
    (l : List (String × β)) (h : k ≠ key) :
    lookupL k (l.map (fun p => if p.1 = key then (p.1, v) else p))
      = lookupL k l := by
  induction l with
  | nil => rfl
  | cons p rest ih =>
    obtain ⟨a, b⟩ := p
    by_cases hak : a = key
    · have hhead : (if (a, b).1 = key then ((a, b).1, v) else (a, b))
          = (a, v) := by simp [hak]
      have hk2 : ¬ a = k := by rw [hak]; exact fun hh => h hh.symm
      rw [List.map_cons, hhead, lookupL, if_neg hk2, lookupL, if_neg hk2]
      exact ih
    · have hhead : (if (a, b).1 = key then ((a, b).1, v) else (a, b))
          = (a, b) := by simp [hak]
      rw [List.map_cons, hhead, lookupL, lookupL]
      by_cases hk2 : a = k
      · rw [if_pos hk2, if_pos hk2]
      · rw [if_neg hk2, if_neg hk2]
        exact ih

theorem earliestTimeFor_cons (k : String) (r : V2.Record)
    (rest : List V2.Record) :
    V2.earliestTimeFor k (r :: rest) =
      if r.pod_name = k then optMin (some r.time) (V2.earliestTimeFor k rest)
      else V2.earliestTimeFor k rest := by
  by_cases hpk : r.pod_name = k
  · have hf : (r :: rest).filter (fun x => x.pod_name = k)
        = r :: rest.filter (fun x => x.pod_name = k) :=
      List.filter_cons_of_pos (decide_eq_true hpk)
    rw [if_pos hpk, V2.earliestTimeFor, hf, List.map_cons, listMin_cons]
    rfl
  · have hf : (r :: rest).filter (fun x => x.pod_name = k)
        = rest.filter (fun x => x.pod_name = k) :=
      List.filter_cons_of_neg (by simp [hpk])
    rw [if_neg hpk, V2.earliestTimeFor, hf]
    rfl

/-- The `pod_first_seen` dict built by the first pass of the v2 normalizer
maps every key to the minimum of its binding in the accumulator and the
batch-wide earliest timestamp of the pod. -/
theorem pod_first_seen_lookup (k : String) :
    ∀ (rs : List V2.Record) (acc : List (String × Int)),
      lookupL k (V2.pod_first_seen_map rs acc) =
        optMin (lookupL k acc) (V2.earliestTimeFor k rs) := by
  intro rs
  induction rs with
  | nil =>
    intro acc
    have hE : V2.earliestTimeFor k [] = none := rfl
    rw [V2.pod_first_seen_map, hE]
    cases lookupL k acc <;> rfl
  | cons r rest ih =>
    intro acc
    rw [earliestTimeFor_cons]
    cases hacc : lookupL r.pod_name acc with
    | none =>
      simp only [V2.pod_first_seen_map, hacc]
      rw [ih ((r.pod_name, r.time) :: acc)]
      by_cases hk : r.pod_name = k
      · subst hk
        rw [if_pos rfl, hacc]
        have hcons : lookupL r.pod_name ((r.pod_name, r.time) :: acc)
            = some r.time := by simp [lookupL]
        rw [hcons]
        cases V2.earliestTimeFor r.pod_name rest <;> rfl
      · rw [if_neg hk]
        have hcons : lookupL k ((r.pod_name, r.time) :: acc)
            = lookupL k acc := by simp [lookupL, hk]
        rw [hcons]
    | some t0 =>
      by_cases hlt : r.time < t0
      · simp only [V2.pod_first_seen_map, hacc, if_pos hlt]
        rw [ih (acc.map (fun p => if p.1 = r.pod_name then (p.1, r.time) else p))]
        by_cases hk : r.pod_name = k
        · subst hk
          rw [if_pos rfl, hacc,
            lookupL_map_update_self r.pod_name r.time acc (by rw [hacc]; rfl)]
          cases V2.earliestTimeFor r.pod_name rest with
          | none =>
            show some r.time = optMin (some t0) (some r.time)
            simp only [optMin, Option.some.injEq]
            omega
          | some m =>
            show some (min r.time m) = optMin (some t0) (some (min r.time m))
            simp only [optMin, Option.some.injEq]
            omega
        · rw [if_neg hk,
            lookupL_map_update_ne k r.pod_name r.time acc (fun hh => hk hh.symm)]
      · simp only [V2.pod_first_seen_map, hacc, if_neg hlt]
        rw [ih acc]
        by_cases hk : r.pod_name = k
        · subst hk
          rw [if_pos rfl, hacc]
          cases V2.earliestTimeFor r.pod_name rest with
          | none =>
            show optMin (some t0) none = optMin (some t0) (some r.time)
            simp only [optMin, Option.some.injEq]
            omega
          | some m =>
            show optMin (some t0) (some m) = optMin (some t0) (some (min r.time m))
            simp only [optMin, Option.some.injEq]
            omega
        · rw [if_neg hk]

/-- Membership characterization of the v2 normalizer output. -/
theorem V2_transform_mem {rs : List V2.Record} {o : Observation}
    (h : o ∈ V2.transform_records rs) :
    ∃ r ∈ rs, o = V2.mkObservation (V2.pod_first_seen_map rs []) r := by
  simp only [V2.transform_records, List.mem_filterMap] at h
  obtain ⟨r, hr, hro⟩ := h
  by_cases hc : pyLower r.state ≠ "running" ∧ pyLower r.phase ≠ "running"
  · rw [if_pos hc] at hro; cases hro
  · rw [if_neg hc] at hro
    injection hro with hro
    exact ⟨r, hr, hro.symm⟩

/-- C1: in both importers the age of every emitted observation is the
elapsed time between that sample's timestamp and the earliest timestamp
carried by any record of the same pod anywhere in the batch (later rows
included); in particular three running samples of one pod at
`t0, t0 + 300, t0 + 600` give the third observation an age of exactly 600. -/
theorem c1_age_from_batch_earliest :
    (∀ (rs : List V1.Record) (t : List Observation) (s : V1.Stats),
      V1.transform_records rs = some (t, s) → ∀ o ∈ t,
        ∃ m, V1.earliestTimeFor o.pod_name rs = some m ∧
          o.age_seconds = o.timestamp - m) ∧
    (∀ (rs : List V2.Record) (o : Observation), o ∈ V2.transform_records rs →
        ∃ m, V2.earliestTimeFor o.pod_name rs = some m ∧
          o.age_seconds = o.timestamp - m) ∧
    (V1.transform_records [bobV1 0, bobV1 300, bobV1 600]).map
        (fun p => p.1.map (fun o => o.age_seconds)) = some [0, 300, 600] ∧
    (V2.transform_records [bobV2 0, bobV2 300, bobV2 600]).map
        (fun o => o.age_seconds) = [0, 300, 600] := by
  refine ⟨?_, ?_, by decide, by decide⟩
  · intro rs t s h o ho
    obtain ⟨n1, n2, haux, -⟩ := transform_records_some h
    obtain ⟨ht, -⟩ := transformAux_master rs rs [] t n1 n2 haux
    subst ht
    obtain ⟨r, hr, hro⟩ := List.mem_map.mp ho
    have hrf := List.mem_filter.mp (V1.keepFirstByKey_subset hr)
    obtain ⟨ts, htime, hpod, -⟩ := passes_parts hrf.2
    subst hro
    have hmem : ts ∈ ((rs.filter
        (fun x => x.pod_name = some (V1.orUnknown r.pod_name))).filterMap
        (fun x => x.time)) := by
      apply List.mem_filterMap.mpr
      exact ⟨r, List.mem_filter.mpr ⟨hrf.1, decide_eq_true hpod⟩, htime⟩
    obtain ⟨m, hm, -⟩ := listMin_of_mem hmem
    have hm2 : V1.earliestTimeFor (V1.orUnknown r.pod_name) rs = some m := hm
    have hE : (V1.specObservation rs r).pod_name = V1.orUnknown r.pod_name := rfl
    have hT : (V1.specObservation rs r).timestamp = ts := by
      show r.time.getD 0 = ts
      rw [htime]
      rfl
    have hA : (V1.specObservation rs r).age_seconds =
        ts - (V1.earliestTimeFor (V1.orUnknown r.pod_name) rs).getD ts := by
      show r.time.getD 0 -
          (V1.earliestTimeFor (V1.orUnknown r.pod_name) rs).getD (r.time.getD 0)
        = _
      rw [htime]
      rfl
    refine ⟨m, ?_, ?_⟩
    · rw [hE]
      exact hm2
    · rw [hA, hT, hm2]
      rfl
  · intro rs o ho
    obtain ⟨r, hr, hro⟩ := V2_transform_mem ho
    subst hro
    have hmem : r.time ∈ ((rs.filter
        (fun x => x.pod_name = r.pod_name)).map (fun x => x.time)) :=
      List.mem_map.mpr ⟨r, List.mem_filter.mpr ⟨hr, decide_eq_true rfl⟩, rfl⟩
    obtain ⟨m, hm, -⟩ := listMin_of_mem hmem
    have hm2 : V2.earliestTimeFor r.pod_name rs = some m := hm
    have hlook : lookupL r.pod_name (V2.pod_first_seen_map rs []) = some m := by
      rw [pod_first_seen_lookup r.pod_name rs []]
      exact hm2
    have hE : (V2.mkObservation (V2.pod_first_seen_map rs []) r).pod_name
        = r.pod_name := rfl
    have hT : (V2.mkObservation (V2.pod_first_seen_map rs []) r).timestamp
        = r.time := rfl
    have hA : (V2.mkObservation (V2.pod_first_seen_map rs []) r).age_seconds
        = r.time - (lookupL r.pod_name (V2.pod_first_seen_map rs [])).getD
            r.time := rfl
    refine ⟨m, ?_, ?_⟩
    · rw [hE]
      exact hm2
    · rw [hA, hT, hlook]
      rfl

theorem c1_age_from_batch_earliest_witness :
    ∃ m, V1.earliestTimeFor bobObs0.pod_name [bobV1 0] = some m ∧
      bobObs0.age_seconds = bobObs0.timestamp - m :=
  c1_age_from_batch_earliest.1 [bobV1 0] [bobObs0]
    { transformed := 1, skipped_no_pod_name := 0, skipped_not_jupyter := 0,
      duplicates_in_batch := 0 } (by decide) bobObs0 (by decide)

theorem specObservation_version (all : List V1.Record) (r : V1.Record) :
    (V1.specObservation all r).container_version = v1VersionRule r := by
  cases hv : r.version <;>
    simp [V1.specObservation, V1.mkObservation, v1VersionRule, hv]

/-- C6 (amended): the v2 normalizer's emitted container version is the
upstream tag exactly when it is present, non-empty and not the `"unknown"`
sentinel, otherwise the version derived from the image reference; the v1
normalizer instead uses the tag whenever it is present and non-empty — the
`"unknown"` sentinel included. -/
theorem c6_version_precedence :
    (∀ (rs : List V2.Record) (o : Observation), o ∈ V2.transform_records rs →
      ∃ r ∈ rs, o.container_version = v2VersionRule r) ∧
    (∀ (rs : List V1.Record) (t : List Observation) (s : V1.Stats),
      V1.transform_records rs = some (t, s) → ∀ o ∈ t,
      ∃ r ∈ rs, o.container_version = v1VersionRule r) := by
  constructor
  · intro rs o ho
    obtain ⟨r, hr, hro⟩ := V2_transform_mem ho
    subst hro
    exact ⟨r, hr, rfl⟩
  · intro rs t s h o ho
    obtain ⟨n1, n2, haux, -⟩ := transform_records_some h
    obtain ⟨ht, -⟩ := transformAux_master rs rs [] t n1 n2 haux
    subst ht
    obtain ⟨r, hr, hro⟩ := List.mem_map.mp ho
    have hrf := List.mem_filter.mp (V1.keepFirstByKey_subset hr)
    subst hro
    exact ⟨r, hrf.1, specObservation_version rs r⟩

theorem c6_version_precedence_witness :
    ∃ r ∈ [bobV2 0], bobObs0V2.container_version = v2VersionRule r :=
  c6_version_precedence.1 [bobV2 0] bobObs0V2 (by decide)

/-- C6 counterexample: a v1 record whose upstream version tag is the
`"unknown"` sentinel is emitted with container version `"unknown"`, not with
the version `v2.1` derived from its image reference, so the claimed
sentinel-rejecting precedence is false for the v1 importer. -/
theorem c6_counterexample :
    (V1.transform_records [unkVerV1]).map
        (fun p => p.1.map (fun o => o.container_version)) = some ["unknown"] ∧
    (extract_container_info "registry.example.com/org/image:v2.1").version
      = "v2.1" ∧
    ("unknown" : String) ≠ "v2.1" := by
  exact ⟨by decide, by decide, by decide⟩

/-! ## User aggregation and upsert lemmas (C7) -/

theorem lookupL_none_not_mem {β : Type} {k : String} {l : List (String × β)}
    (h : lookupL k l = none) : k ∉ l.map Prod.fst := by
  induction l with
  | nil => simp
  | cons p rest ih =>
    obtain ⟨a, b⟩ := p
    rw [lookupL] at h
    by_cases hak : a = k
    · rw [if_pos hak] at h; cases h
    · rw [if_neg hak] at h
      simp only [List.map_cons, List.mem_cons]
      rintro (rfl | hm)
      · exact hak rfl
      · exact ih h hm

theorem extract_users_nodup (tb : List Observation) :
    ((V1.extract_users_from_batch tb).map Prod.fst).Nodup := by
  suffices h : ∀ acc : List (String × V1.UserAgg), (acc.map Prod.fst).Nodup →
      ((tb.foldl V1.foldUser acc).map Prod.fst).Nodup by
    exact h [] (by simp)
  induction tb with
  | nil => intro acc h; exact h
  | cons o rest ih =>
    intro acc h
    rw [List.foldl_cons]
    apply ih
    cases hl : lookupL o.user_email acc with
    | none =>
      simp only [V1.foldUser, hl]
      rw [List.map_append]
      refine List.Nodup.append h (by simp) ?_
      intro a ha hb
      simp only [List.map_cons, List.map_nil, List.mem_singleton] at hb
      subst hb
      exact (lookupL_none_not_mem hl) ha
    | some d =>
      simp only [V1.foldUser, hl]
      have hm : ((acc.map (fun p =>
          if p.1 = o.user_email then
            (p.1, (⟨p.2.user_id, min p.2.first_seen o.timestamp,
                   max p.2.last_seen o.timestamp⟩ : V1.UserAgg))
          else p)).map Prod.fst) = acc.map Prod.fst := by
        rw [List.map_map]
        apply List.map_congr_left
        intro p hp
        by_cases hpe : p.1 = o.user_email
        · simp [hpe]
        · simp [hpe]
      rw [hm]
      exact h

theorem findUser_append_some {table l2 : List V1.UserRow} {email : String}
    {row : V1.UserRow} (h : V1.findUser email table = some row) :
    V1.findUser email (table ++ l2) = some row := by
  induction table with
  | nil => cases h
  | cons r rest ih =>
    rw [V1.findUser] at h
    rw [List.cons_append, V1.findUser]
    by_cases h0 : r.email = email
    · rw [if_pos h0] at h
      rw [if_pos h0]
      exact h
    · rw [if_neg h0] at h
      rw [if_neg h0]
      exact ih h

theorem findUser_some_any {table : List V1.UserRow} {email : String}
    {row : V1.UserRow} (h : V1.findUser email table = some row) :
    table.any (fun r => r.email = email) = true := by
  induction table with
  | nil => cases h
  | cons r rest ih =>
    rw [V1.findUser] at h
    rw [List.any_cons]
    by_cases h0 : r.email = email
    · simp [h0]
    · rw [if_neg h0] at h
      simp [ih h]

theorem findUser_map_update_ne {table : List V1.UserRow} {email e : String}
    {row : V1.UserRow} {d : V1.UserAgg} (hne : e ≠ email)
    (h : V1.findUser email table = some row) :
    V1.findUser email (table.map (fun r =>
      if r.email = e then
        { r with first_seen := min r.first_seen d.first_seen,
                 last_seen := max r.last_seen d.last_seen }
      else r)) = some row := by
  induction table with
  | nil => cases h
  | cons r0 rest ih =>
    rw [V1.findUser] at h
    rw [List.map_cons]
    by_cases h0 : r0.email = email
    · rw [if_pos h0] at h
      have hr0e : ¬ r0.email = e := by rw [h0]; exact fun hh => hne hh.symm
      rw [if_neg hr0e, V1.findUser, if_pos h0]
      exact h
    · rw [if_neg h0] at h
      by_cases hr0 : r0.email = e
      · rw [if_pos hr0, V1.findUser]
        rw [if_neg (by show ¬ r0.email = email; exact h0)]
        exact ih h
      · rw [if_neg hr0, V1.findUser, if_neg h0]
        exact ih h

theorem findUser_map_update_self {table : List V1.UserRow} {email : String}
    {row : V1.UserRow} {d : V1.UserAgg}
    (h : V1.findUser email table = some row) :
    V1.findUser email (table.map (fun r =>
      if r.email = email then
        { r with first_seen := min r.first_seen d.first_seen,
                 last_seen := max r.last_seen d.last_seen }
      else r)) =
      some { row with first_seen := min row.first_seen d.first_seen,
                      last_seen := max row.last_seen d.last_seen } := by
  induction table with
  | nil => cases h
  | cons r0 rest ih =>
    rw [V1.findUser] at h
    rw [List.map_cons]
    by_cases h0 : r0.email = email
    · rw [if_pos h0] at h
      injection h with h
      subst h
      rw [if_pos h0, V1.findUser]
      rw [if_pos (by show _ = email; exact h0)]
    · rw [if_neg h0] at h
      rw [if_neg h0, V1.findUser, if_neg h0]
      exact ih h

theorem applyUserUpsert_ne {table : List V1.UserRow} {email e : String}
    {row : V1.UserRow} {d : V1.UserAgg} (hne : e ≠ email)
    (h : V1.findUser email table = some row) :
    V1.findUser email (V1.applyUserUpsert table e d) = some row := by
  unfold V1.applyUserUpsert
  by_cases hany : table.any (fun r => r.email = e)
  · rw [if_pos hany]
    exact findUser_map_update_ne hne h
  · rw [if_neg hany]
    exact findUser_append_some h

theorem applyUserUpsert_self {table : List V1.UserRow} {email : String}
    {row : V1.UserRow} {d : V1.UserAgg}
    (h : V1.findUser email table = some row) :
    V1.findUser email (V1.applyUserUpsert table email d) =
      some { row with first_seen := min row.first_seen d.first_seen,
                      last_seen := max row.last_seen d.last_seen } := by
  unfold V1.applyUserUpsert
  rw [if_pos (findUser_some_any h)]
  exact findUser_map_update_self h

theorem upsert_users_not_mem {email : String} :
    ∀ (users : List (String × V1.UserAgg)) (table : List V1.UserRow)
      (row : V1.UserRow),
      (∀ p ∈ users, p.1 ≠ email) →
      V1.findUser email table = some row →
      V1.findUser email (V1.upsert_users table users) = some row := by
  intro users
  induction users with
  | nil => intro table row hu h; exact h
  | cons p rest ih =>
    intro table row hu h
    obtain ⟨e, d0⟩ := p
    have he : e ≠ email := hu (e, d0) (List.mem_cons_self _ _)
    show V1.findUser email
        (V1.upsert_users (V1.applyUserUpsert table e d0) rest) = some row
    exact ih (V1.applyUserUpsert table e d0) row
      (fun q hq => hu q (List.mem_cons_of_mem _ hq)) (applyUserUpsert_ne he h)

theorem upsert_users_widen :
    ∀ (users : List (String × V1.UserAgg)) (table : List V1.UserRow)
      (email : String) (row : V1.UserRow) (d : V1.UserAgg),
      (users.map Prod.fst).Nodup →
      V1.findUser email table = some row →
      lookupL email users = some d →
      V1.findUser email (V1.upsert_users table users) =
        some { row with first_seen := min row.first_seen d.first_seen,
                        last_seen := max row.last_seen d.last_seen } := by
  intro users
  induction users with
  | nil => intro table email row d hnd hf hl; cases hl
  | cons p rest ih =>
    intro table email row d hnd hf hl
    obtain ⟨e, d0⟩ := p
    rw [List.map_cons, List.nodup_cons] at hnd
    by_cases he : e = email
    · subst he
      rw [lookupL, if_pos rfl] at hl
      injection hl with hl
      subst hl
      have hrest : ∀ q ∈ rest, q.1 ≠ e := by
        intro q hq hqe
        exact hnd.1 (List.mem_map.mpr ⟨q, hq, hqe⟩)
      show V1.findUser e
          (V1.upsert_users (V1.applyUserUpsert table e d0) rest) = _
      exact upsert_users_not_mem rest _ _ hrest (applyUserUpsert_self hf)
    · rw [lookupL, if_neg he] at hl
      show V1.findUser email
          (V1.upsert_users (V1.applyUserUpsert table e d0) rest) = _
      exact ih (V1.applyUserUpsert table e d0) email row d hnd.2
        (applyUserUpsert_ne he hf) hl

/-- C7: upserting an aggregated batch for an already-stored email widens the
stored `[first_seen, last_seen]` range to the min/max of the stored and
incoming values (so the range never shrinks); in particular importing
observations covering `[t1, t3]` and then `[t2, t4]` with
`t1 < t2 < t3 < t4` leaves `first_seen = t1` and `last_seen = t4`. -/
theorem c7_user_seen_widening :
    (∀ (table : List V1.UserRow) (tb : List Observation) (email : String)
       (row : V1.UserRow) (d : V1.UserAgg),
      V1.findUser email table = some row →
      lookupL email (V1.extract_users_from_batch tb) = some d →
      V1.findUser email
          (V1.upsert_users table (V1.extract_users_from_batch tb)) =
        some { row with first_seen := min row.first_seen d.first_seen,
                        last_seen := max row.last_seen d.last_seen }) ∧
    (∀ t1 t2 t3 t4 : Int, t1 < t2 → t2 < t3 → t3 < t4 →
      (V1.findUser "u@illinois.edu"
          (V1.upsert_users
            (V1.upsert_users []
              (V1.extract_users_from_batch [obsU t1, obsU t3]))
            (V1.extract_users_from_batch [obsU t2, obsU t4]))).map
          (fun r => (r.first_seen, r.last_seen)) = some (t1, t4)) := by
  constructor
  · intro table tb email row d hf hl
    exact upsert_users_widen (V1.extract_users_from_batch tb) table email row d
      (extract_users_nodup tb) hf hl
  · intro t1 t2 t3 t4 h12 h23 h34
    simp [V1.extract_users_from_batch, V1.foldUser, lookupL, V1.upsert_users,
      V1.applyUserUpsert, V1.findUser, obsU]
    omega

theorem c7_user_seen_widening_witness :
    V1.findUser "u@illinois.edu"
        (V1.upsert_users [uRow] (V1.extract_users_from_batch [obsU 5])) =
      some { uRow with
             first_seen := min uRow.first_seen
               ((⟨"u", 5, 5⟩ : V1.UserAgg)).first_seen,
             last_seen := max uRow.last_seen
               ((⟨"u", 5, 5⟩ : V1.UserAgg)).last_seen } :=
  c7_user_seen_widening.1 [uRow] [obsU 5] "u@illinois.edu" uRow
    ⟨"u", 5, 5⟩ (by decide) (by decide)

/-- C8: the two dialect variants of `extract_user_info_from_pod_name` do not
return equal emails for the same pod name — v1 appends `@illinois.edu` while
v2 appends the misspelled `@ilinois.edu` — although the derived display
names agree; evaluating both at `jupyter-alice-x7k2` exhibits the
divergence. -/
theorem c8_identity_dialects_divergence :
    V1.extract_user_info_from_pod_name "jupyter-alice-x7k2" =
      { email := "alice@illinois.edu", name := "Alice" } ∧
    V2.extract_user_info_from_pod_name "jupyter-alice-x7k2" =
      { email := "alice@ilinois.edu", name := "Alice" } ∧
    V1.extract_user_info_from_pod_name "jupyter-alice-x7k2" ≠
      V2.extract_user_info_from_pod_name "jupyter-alice-x7k2" := by
  exact ⟨by decide, by decide, by decide⟩

/-- C9: with the default parameters (`minutes_before = 1`,
`minutes_after = 2`) the blocked-window check returns `true` exactly for the
wall-clock minutes 59, 0, 1 and 2, and `false` for every other minute. -/
theorem c9_blocked_window_minutes :
    ∀ m : Nat, m < 60 →
      is_in_blocked_time_window m 1 2 =
        (decide (m = 59) || decide (m = 0) || decide (m = 1)
          || decide (m = 2)) := by
  decide

theorem c9_blocked_window_minutes_witness :
    is_in_blocked_time_window 59 1 2 =
      (decide ((59 : Nat) = 59) || decide ((59 : Nat) = 0)
        || decide ((59 : Nat) = 1) || decide ((59 : Nat) = 2)) :=
  c9_blocked_window_minutes 59 (by decide)
